import Mathlib

/-!
Verification of the PixelForge photo editor (src/App.tsx, src/types.ts,
src/constants.ts).

The render pipeline, the editor state records and the event handlers are
embedded shallowly: numeric values are rationals, pixel buffers are lists or
coordinate functions, and the React state updates become explicit functions
from old state to new state.
-/

namespace PixelForge

/-! ## Data model (src/types.ts, src/constants.ts) -/

/-- The flat adjustments record (src/types.ts, `Adjustments`). Numeric
sliders are modelled as rationals; the duotone colors stay raw hex strings. -/
structure Adjustments where
  brightness : ℚ
  contrast : ℚ
  saturation : ℚ
  grayscale : ℚ
  sepia : ℚ
  hueRotate : ℚ
  blur : ℚ
  invert : ℚ
  exposure : ℚ
  gamma : ℚ
  vignette : ℚ
  noise : ℚ
  grain : ℚ
  perspectiveH : ℚ
  perspectiveV : ℚ
  duotoneEnabled : Bool
  duotoneLight : String
  duotoneDark : String
  deriving DecidableEq, Repr

/-- `INITIAL_ADJUSTMENTS` (src/constants.ts lines 3-22). -/
def INITIAL_ADJUSTMENTS : Adjustments :=
  { brightness := 100, contrast := 100, saturation := 100, grayscale := 0
    sepia := 0, hueRotate := 0, blur := 0, invert := 0, exposure := 100
    gamma := 100, vignette := 0, noise := 0, grain := 0
    perspectiveH := 0, perspectiveV := 0
    duotoneEnabled := false, duotoneLight := "#ffffff", duotoneDark := "#000000" }

/-! ## The composite CSS filter chain (src/App.tsx lines 108-113)

`render` assigns `ctx.filter` a template string listing single-pass filter
functions in a fixed left-to-right order.  We model that string as a list of
filter operations; each operation carries its CSS amount (percentages already
divided by 100, blur in pixels, the final exposure term as the unitless
multiplier `exposure / 100` exactly as the source writes it). -/

inductive FilterOp where
  | brightness : ℚ → FilterOp
  | contrast : ℚ → FilterOp
  | saturate : ℚ → FilterOp
  | grayscale : ℚ → FilterOp
  | sepia : ℚ → FilterOp
  | hueRotate : ℚ → FilterOp
  | blur : ℚ → FilterOp
  | invert : ℚ → FilterOp
  deriving DecidableEq, Repr

/-- True exactly for the sepia and hue-rotate operations. -/
def FilterOp.isSepiaOrHue : FilterOp → Bool
  | .sepia _ => true
  | .hueRotate _ => true
  | _ => false

/-- The filter chain the source actually builds (src/App.tsx lines 108-113):
`brightness(b%) contrast(c%) saturate(s%) grayscale(g%) blur(blur px)
invert(i%) brightness(exposure/100)`.  Note the string contains no `sepia`
and no `hue-rotate` entry even though both fields exist in `Adjustments`. -/
def filterChain (a : Adjustments) : List FilterOp :=
  [ FilterOp.brightness (a.brightness / 100)
  , FilterOp.contrast (a.contrast / 100)
  , FilterOp.saturate (a.saturation / 100)
  , FilterOp.grayscale (a.grayscale / 100)
  , FilterOp.blur a.blur
  , FilterOp.invert (a.invert / 100)
  , FilterOp.brightness (a.exposure / 100) ]

/-! ## Output canvas dimensions (src/App.tsx lines 96-98) -/

/-- `const isRotated = rotation % 180 !== 0; canvas.width = isRotated ?
image.height : image.width; canvas.height = isRotated ? image.width :
image.height;` -/
def canvasDims (rotation : ℤ) (w h : ℕ) : ℕ × ℕ :=
  if rotation % 180 ≠ 0 then (h, w) else (w, h)

/-- `render` returns early when no image is loaded (src/App.tsx line 92);
with a loaded image of size `(w, h)` it sets the canvas to `canvasDims`. -/
def renderDims (image : Option (ℕ × ℕ)) (rotation : ℤ) : Option (ℕ × ℕ) :=
  image.map fun wh => canvasDims rotation wh.1 wh.2

/-! ## Hex color parsing (src/App.tsx lines 85-88)

`hexToRgb` runs the regex `/^#?([a-f\d]2)([a-f\d]2)([a-f\d]2)$/i`
(each group: exactly two hex digits) and parses the three groups with
`parseInt(_, 16)`, returning `null` when the regex does not match. -/

/-- A character matched by the class `[a-f\d]` under the `i` flag. -/
def isHexDig (c : Char) : Bool :=
  (decide ('0' ≤ c) && decide (c ≤ '9')) ||
  (decide ('a' ≤ c) && decide (c ≤ 'f')) ||
  (decide ('A' ≤ c) && decide (c ≤ 'F'))

/-- Value of one hex digit, as `parseInt` assigns it. -/
def hexDigVal (c : Char) : ℕ :=
  if decide ('0' ≤ c) && decide (c ≤ '9') then c.toNat - '0'.toNat
  else if decide ('a' ≤ c) && decide (c ≤ 'f') then c.toNat - 'a'.toNat + 10
  else c.toNat - 'A'.toNat + 10

structure Rgb where
  r : ℕ
  g : ℕ
  b : ℕ
  deriving DecidableEq, Repr

/-- The capture groups: exactly six hex digits, parsed in pairs. -/
def parseHex6 : List Char → Option Rgb
  | [c1, c2, c3, c4, c5, c6] =>
      if isHexDig c1 && isHexDig c2 && isHexDig c3 && isHexDig c4 &&
         isHexDig c5 && isHexDig c6 then
        some { r := 16 * hexDigVal c1 + hexDigVal c2
             , g := 16 * hexDigVal c3 + hexDigVal c4
             , b := 16 * hexDigVal c5 + hexDigVal c6 }
      else none
  | _ => none

/-- `hexToRgb` (src/App.tsx lines 85-88): optional leading `#`, then exactly
six hex digits grouped in pairs; otherwise `null`. -/
def hexToRgb (s : String) : Option Rgb :=
  parseHex6 (if s.data.head? = some '#' then s.data.tail else s.data)

/-- Worded from the spec: "the string consists of an optional leading '#'
followed by exactly six hexadecimal digits". -/
def specValidHex (s : String) : Prop :=
  ∃ core : List Char,
    (s.data = '#' :: core ∨ s.data = core) ∧
    core.length = 6 ∧ ∀ c ∈ core, isHexDig c

/-- The light duotone color with its fallback
(src/App.tsx line 121: `hexToRgb(...) || white`). -/
def duotoneLightRgb (s : String) : Rgb := (hexToRgb s).getD { r := 255, g := 255, b := 255 }

/-- The dark duotone color with its fallback
(src/App.tsx line 122: `hexToRgb(...) || black`). -/
def duotoneDarkRgb (s : String) : Rgb := (hexToRgb s).getD { r := 0, g := 0, b := 0 }

/-! ## Duotone stage (src/App.tsx lines 117-130)

When `duotoneEnabled`, the render reads the buffer's pixel data and
per pixel computes `avg = (R+G+B)/3/255`, then writes
`dark + (light - dark) * avg` into each color channel, skipping the alpha
byte (`i += 4`, indices `i`, `i+1`, `i+2` written only). -/

/-- One RGBA pixel; channels are rationals (the raw channel bytes of
`getImageData` are the integers 0..255). -/
structure Pix where
  r : ℚ
  g : ℚ
  b : ℚ
  a : ℚ
  deriving DecidableEq, Repr

/-- `const avg = (data[i] + data[i+1] + data[i+2]) / 3 / 255` (line 124). -/
def lumAvg (p : Pix) : ℚ := (p.r + p.g + p.b) / 3 / 255

/-- Per-pixel duotone remap (src/App.tsx lines 124-127). -/
def duotonePix (light dark : Rgb) (p : Pix) : Pix :=
  { r := (dark.r : ℚ) + ((light.r : ℚ) - (dark.r : ℚ)) * lumAvg p
  , g := (dark.g : ℚ) + ((light.g : ℚ) - (dark.g : ℚ)) * lumAvg p
  , b := (dark.b : ℚ) + ((light.b : ℚ) - (dark.b : ℚ)) * lumAvg p
  , a := p.a }

/-- The duotone stage over a pixel buffer, with its enable gate
(src/App.tsx line 118: `if (adjustments.duotoneEnabled)`). -/
def duotoneStage (enabled : Bool) (lightS darkS : String) (buf : List Pix) : List Pix :=
  if enabled then
    buf.map (duotonePix (duotoneLightRgb lightS) (duotoneDarkRgb darkS))
  else buf

/-! ## Grain stage (src/App.tsx lines 141-147)

`if (adjustments.grain > 0) for (let i = 0; i < (w * h * grain) / 5000; i++)
{ fillStyle = rgba(255,255,255, random()*0.05); fillRect(random()*w,
random()*h, 1, 1) }`.  The loop counter ranges over the naturals strictly
below the rational bound `w*h*grain/5000`, i.e. it runs `⌈w*h*grain/5000⌉`
times.  `Math.random()` is modelled as an oracle stream of rationals in
`[0,1)`, consumed in source order (alpha, then x, then y). -/

/-- The loop bound `(canvas.width * canvas.height * adjustments.grain) / 5000`. -/
def grainIterBound (w h : ℕ) (grain : ℚ) : ℚ := (w : ℚ) * (h : ℚ) * grain / 5000

/-- Number of iterations of the grain loop: the count of naturals `i` with
`(i : ℚ) < grainIterBound`, which is the ceiling of the bound. -/
def grainCount (w h : ℕ) (grain : ℚ) : ℕ := ⌈grainIterBound w h grain⌉₊

/-- One grain mark: a 1×1 white `fillRect` at `(x, y)` with alpha
`random()*0.05`. -/
structure GrainMark where
  x : ℚ
  y : ℚ
  alpha : ℚ
  deriving DecidableEq, Repr

/-- The grain stage: the list of marks drawn, given the random stream. -/
def grainMarks (w h : ℕ) (grain : ℚ) (rnd : ℕ → ℚ) : List GrainMark :=
  if 0 < grain then
    (List.range (grainCount w h grain)).map fun i =>
      { alpha := rnd (3 * i) * (5 / 100)
      , x := rnd (3 * i + 1) * w
      , y := rnd (3 * i + 2) * h }
  else []

/-! ## History log (src/App.tsx lines 34-41)

`saveToHistory` pushes a deep copy of the current editor state:
`next = [...prev.slice(0, historyIndex + 1), copy]; return next.slice(-20)`.
`historyIndex` starts at `-1` and is incremented by every push. -/

/-- JavaScript `slice(0, e)` for an integer end index `e` (negative `e`
counts back from the end). -/
def jsSliceTo (l : List α) (e : ℤ) : List α :=
  if e < 0 then l.take (l.length - (-e).toNat) else l.take e.toNat

/-- JavaScript `slice(-n)`: the last `n` elements (the whole list when it is
shorter than `n`). -/
def lastN (n : ℕ) (l : List α) : List α := l.drop (l.length - n)

/-- One push of `saveToHistory` on the stored log (src/App.tsx lines 36-39). -/
def pushHistory (prev : List α) (historyIndex : ℤ) (snap : α) : List α :=
  lastN 20 (jsSliceTo prev (historyIndex + 1) ++ [snap])

/-- One whole `saveToHistory` call on the `(history, historyIndex)` pair:
push the snapshot, then increment the pointer (src/App.tsx lines 36-40). -/
def historyStep (st : List α × ℤ) (snap : α) : List α × ℤ :=
  (pushHistory st.1 st.2 snap, st.2 + 1)

/-! ## Strokes, texts and the editor state (src/types.ts) -/

structure Pt where
  x : ℚ
  y : ℚ
  deriving DecidableEq, Repr

inductive StrokeMode where
  | pencil
  | glow
  | eraser
  deriving DecidableEq, Repr

/-- `DrawingStroke` (src/types.ts lines 30-36). -/
structure Stroke where
  id : String
  points : List Pt
  color : String
  width : ℚ
  mode : StrokeMode
  deriving DecidableEq, Repr

inductive TextAlign where
  | left
  | center
  | right
  deriving DecidableEq, Repr

/-- `TextOverlay` (src/types.ts lines 38-48). -/
structure TextItem where
  id : String
  text : String
  x : ℚ
  y : ℚ
  color : String
  size : ℚ
  fontWeight : String
  align : TextAlign
  letterSpacing : ℚ
  deriving DecidableEq, Repr

/-- `OverlayState` (src/types.ts lines 24-28); the decoded overlay image is
an opaque handle. -/
structure OverlayState where
  image : Option ℕ
  opacity : ℚ
  blendMode : String
  deriving DecidableEq, Repr

/-- `EditorState` (src/types.ts lines 50-58), the snapshot payload. -/
structure EditorState where
  adjustments : Adjustments
  rotation : ℤ
  flipH : Bool
  flipV : Bool
  strokes : List Stroke
  texts : List TextItem
  canvasBg : String
  deriving DecidableEq, Repr

/-- `EditorTool` (src/types.ts line 22). -/
inductive EditorTool where
  | adjust
  | filter
  | transform
  | overlay
  | draw
  | text
  | layers
  | presets
  | canvas
  deriving DecidableEq, Repr

/-- The `App` component's state hooks (src/App.tsx lines 13-28) that the
claims touch; the decoded source image is an opaque handle. -/
structure AppState where
  image : Option ℕ
  overlay : OverlayState
  activeTool : EditorTool
  adjustments : Adjustments
  rotation : ℤ
  zoom : ℚ
  canvasBg : String
  strokes : List Stroke
  texts : List TextItem
  isDrawing : Bool
  history : List EditorState
  historyIndex : ℤ
  deriving DecidableEq, Repr

/-- `resetEditor` (src/App.tsx lines 64-73). -/
def resetEditor (st : AppState) : AppState :=
  { st with
    adjustments := INITIAL_ADJUSTMENTS
    rotation := 0
    strokes := []
    texts := []
    overlay := { image := none, opacity := 1 / 2, blendMode := "screen" }
    history := []
    historyIndex := -1
    zoom := 4 / 5 }

/-- The image `onload` callback of `handleFile` (src/App.tsx lines 49-55):
an overlay load only swaps the overlay image; a source load stores the image
and runs `resetEditor`. -/
def handleFileLoaded (st : AppState) (img : ℕ) (isOverlay : Bool) : AppState :=
  if isOverlay then { st with overlay := { st.overlay with image := some img } }
  else resetEditor { st with image := some img }

/-! ## Pointer-move during drawing (src/App.tsx lines 199-219)

`handleInteraction` returns immediately unless the draw tool is active and
an image is loaded; on `mousemove`/`touchmove` it extends the last stroke
only while `isDrawing`, dropping the event when the stroke list is empty. -/

/-- The `setStrokes` updater of the move branch (src/App.tsx lines 215-219):
`const last = prev[prev.length - 1]; if (!last) return prev;` then
`return` of `prev.slice(0, -1)` with `last` re-appended carrying
`points = [...last.points, pos]`. -/
def extendLastStroke (prev : List Stroke) (pos : Pt) : List Stroke :=
  match prev.getLast? with
  | none => prev
  | some last => prev.dropLast ++ [{ last with points := last.points ++ [pos] }]

/-- Effect of one pointer-move event on the stroke list, with the guards of
`handleInteraction` (src/App.tsx lines 200 and 212). -/
def handleMoveStrokes (activeTool : EditorTool) (hasImage isDrawing : Bool)
    (strokes : List Stroke) (pos : Pt) : List Stroke :=
  if activeTool ≠ EditorTool.draw ∨ hasImage = false then strokes
  else if isDrawing then extendLastStroke strokes pos
  else strokes

/-! ## Pixel semantics of the render (src/App.tsx lines 100-130)

`render` fills the canvas with `canvasBg` (default `#0a0f1a`, opaque), then
draws the source image through the composite `ctx.filter` chain with
source-over compositing.  The per-pixel semantics of the CSS filter
functions follows the W3C Filter Effects definitions: `brightness`,
`contrast` and `invert` are the component transfer functions, `saturate`
and `grayscale` the color matrices.  `blur` is a convolution whose kernel
at radius 0 is the identity kernel (a Gaussian of deviation 0); for
positive radius we model it as a box kernel of whole-pixel radius
`⌈radius⌉` — the claims only exercise radius 0, where box and Gaussian
kernels coincide. -/

/-- A raster image: extents plus a total pixel function (only coordinates
inside the extents are meaningful). -/
structure Image where
  width : ℕ
  height : ℕ
  px : ℕ → ℕ → Pix

/-- Apply a per-pixel function everywhere. -/
def mapPix (f : Pix → Pix) (img : Image) : Image :=
  { width := img.width, height := img.height, px := fun x y => f (img.px x y) }

/-- CSS `brightness(amount)`: linear scale of the color channels. -/
def brightnessPix (amount : ℚ) (p : Pix) : Pix :=
  { r := amount * p.r, g := amount * p.g, b := amount * p.b, a := p.a }

/-- CSS `contrast(amount)`: slope `amount` about the mid-level 127.5. -/
def contrastPix (amount : ℚ) (p : Pix) : Pix :=
  { r := amount * (p.r - 255 / 2) + 255 / 2
  , g := amount * (p.g - 255 / 2) + 255 / 2
  , b := amount * (p.b - 255 / 2) + 255 / 2
  , a := p.a }

/-- CSS `saturate(s)` color matrix (W3C Filter Effects). -/
def saturatePix (s : ℚ) (p : Pix) : Pix :=
  { r := (213 / 1000 + 787 / 1000 * s) * p.r + (715 / 1000 - 715 / 1000 * s) * p.g +
         (72 / 1000 - 72 / 1000 * s) * p.b
  , g := (213 / 1000 - 213 / 1000 * s) * p.r + (715 / 1000 + 285 / 1000 * s) * p.g +
         (72 / 1000 - 72 / 1000 * s) * p.b
  , b := (213 / 1000 - 213 / 1000 * s) * p.r + (715 / 1000 - 715 / 1000 * s) * p.g +
         (72 / 1000 + 928 / 1000 * s) * p.b
  , a := p.a }

/-- CSS `grayscale(g)` color matrix (W3C Filter Effects). -/
def grayscalePix (g : ℚ) (p : Pix) : Pix :=
  { r := (2126 / 10000 + 7874 / 10000 * (1 - g)) * p.r +
         (7152 / 10000 - 7152 / 10000 * (1 - g)) * p.g +
         (722 / 10000 - 722 / 10000 * (1 - g)) * p.b
  , g := (2126 / 10000 - 2126 / 10000 * (1 - g)) * p.r +
         (7152 / 10000 + 2848 / 10000 * (1 - g)) * p.g +
         (722 / 10000 - 722 / 10000 * (1 - g)) * p.b
  , b := (2126 / 10000 - 2126 / 10000 * (1 - g)) * p.r +
         (7152 / 10000 - 7152 / 10000 * (1 - g)) * p.g +
         (722 / 10000 + 9278 / 10000 * (1 - g)) * p.b
  , a := p.a }

/-- CSS `invert(i)`: interpolation between a channel and its complement. -/
def invertPix (i : ℚ) (p : Pix) : Pix :=
  { r := (1 - i) * p.r + i * (255 - p.r)
  , g := (1 - i) * p.g + i * (255 - p.g)
  , b := (1 - i) * p.b + i * (255 - p.b)
  , a := p.a }

/-- Clamp an integer sample coordinate into `[0, bound - 1]` (edge-extend
sampling for the blur window). -/
def clampCoord (n : ℤ) (bound : ℕ) : ℕ :=
  (max 0 (min n ((bound : ℤ) - 1))).toNat

/-- Edge-extended sample of an image at integer coordinates. -/
def samplePix (img : Image) (ix iy : ℤ) : Pix :=
  img.px (clampCoord ix img.width) (clampCoord iy img.height)

def addPix (p q : Pix) : Pix :=
  { r := p.r + q.r, g := p.g + q.g, b := p.b + q.b, a := p.a + q.a }

def smulPix (c : ℚ) (p : Pix) : Pix :=
  { r := c * p.r, g := c * p.g, b := c * p.b, a := c * p.a }

def sumPixList (l : List Pix) : Pix := l.foldr addPix { r := 0, g := 0, b := 0, a := 0 }

/-- The window offsets `-k .. k`. -/
def blurOffsets (k : ℕ) : List ℤ := (List.range (2 * k + 1)).map fun j => (j : ℤ) - k

/-- Average of the `(2k+1)²` window centred at `(x, y)`. -/
def boxBlurAt (k : ℕ) (img : Image) (x y : ℕ) : Pix :=
  smulPix (1 / ((2 * (k : ℚ) + 1) ^ 2))
    (sumPixList ((blurOffsets k).flatMap fun dy =>
      (blurOffsets k).map fun dx => samplePix img ((x : ℤ) + dx) ((y : ℤ) + dy)))

/-- CSS `blur(radius px)`, modelled with a whole-pixel box kernel; at radius
0 the kernel is the single-sample identity kernel. -/
def blurImage (radius : ℚ) (img : Image) : Image :=
  { width := img.width, height := img.height
  , px := fun x y => boxBlurAt ⌈radius⌉₊ img x y }

/-- The composite filter chain applied to the source image, in the source's
left-to-right order (src/App.tsx lines 108-113): brightness, contrast,
saturate, grayscale, blur, invert, then the exposure brightness term. -/
def applyFilters (a : Adjustments) (img : Image) : Image :=
  mapPix (brightnessPix (a.exposure / 100))
    (mapPix (invertPix (a.invert / 100))
      (blurImage a.blur
        (mapPix (grayscalePix (a.grayscale / 100))
          (mapPix (saturatePix (a.saturation / 100))
            (mapPix (contrastPix (a.contrast / 100))
              (mapPix (brightnessPix (a.brightness / 100)) img))))))

/-- Source-over compositing of a source pixel onto a destination pixel
(non-premultiplied channels). -/
def srcOver (src dst : Pix) : Pix :=
  let ao := src.a + dst.a * (1 - src.a)
  if ao = 0 then { r := 0, g := 0, b := 0, a := 0 }
  else
    { r := (src.r * src.a + dst.r * dst.a * (1 - src.a)) / ao
    , g := (src.g * src.a + dst.g * dst.a * (1 - src.a)) / ao
    , b := (src.b * src.a + dst.b * dst.a * (1 - src.a)) / ao
    , a := ao }

/-- The default canvas background `#0a0f1a` (src/App.tsx line 19), filled
opaque by `fillRect` (lines 101-102). -/
def bgPix : Pix := { r := 10, g := 15, b := 26, a := 1 }

/-- Duotone remap of a whole image (the `getImageData` buffer walk of
src/App.tsx lines 119-129). -/
def duotoneImage (lightS darkS : String) (img : Image) : Image :=
  mapPix (duotonePix (duotoneLightRgb lightS) (duotoneDarkRgb darkS)) img

/-- The render at rotation 0 with no strokes, texts or overlay and grain 0
(the scenario of the identity-adjustments property): background fill, then
the filtered source composited source-over, then the gated duotone stage
(src/App.tsx lines 100-130). -/
def renderBaseline (img : Image) (a : Adjustments) : Image :=
  let f := applyFilters a img
  let composed : Image :=
    { width := img.width, height := img.height
    , px := fun x y => srcOver (f.px x y) bgPix }
  if a.duotoneEnabled then duotoneImage a.duotoneLight a.duotoneDark composed
  else composed

/-! ## Snapshot independence (src/App.tsx line 37)

`saveToHistory` stores `JSON.parse(JSON.stringify(state))`.  To state that
the stored snapshot is structurally independent of the live state we model
the JavaScript object store explicitly: a heap maps addresses to nodes, a
node is a primitive leaf or a record of named child addresses (arrays are
records keyed by index).  `JSON.stringify` reads the live state into a pure
JSON tree; `JSON.parse` allocates that tree at fresh addresses.  Mutation of
any pre-existing cell must leave the copy's readback unchanged. -/

/-- A JSON primitive. -/
inductive JLeaf where
  | num : ℚ → JLeaf
  | str : String → JLeaf
  | bool : Bool → JLeaf
  | null : JLeaf
  deriving DecidableEq, Repr

mutual

/-- A pure JSON tree (the value `JSON.stringify` extracts). -/
inductive JVal where
  | leaf : JLeaf → JVal
  | node : JFields → JVal
  deriving DecidableEq, Repr

/-- The named children of a JSON object (or array, keyed by index). -/
inductive JFields where
  | nil : JFields
  | cons : String → JVal → JFields → JFields
  deriving DecidableEq, Repr

end

/-- One heap cell: a primitive, or a record of child addresses. -/
inductive HNode where
  | hleaf : JLeaf → HNode
  | hnode : List (String × ℕ) → HNode
  deriving DecidableEq, Repr

/-- The object store. -/
def Heap : Type := ℕ → Option HNode

/-- Write one cell. -/
def heapSet (h : Heap) (addr : ℕ) (n : HNode) : Heap :=
  fun b => if b = addr then some n else h b

mutual

/-- Allocate a fresh copy of a JSON tree (`JSON.parse` of the serialized
live state): returns the new heap, the root address and the next free
address.  All fresh cells are taken from the counter upward. -/
def writeVal : JVal → Heap → ℕ → Heap × ℕ × ℕ
  | .leaf l, h, c => (heapSet h c (.hleaf l), c, c + 1)
  | .node fs, h, c =>
      let r := writeFields fs h c
      (heapSet r.1 r.2.2 (.hnode r.2.1), r.2.2, r.2.2 + 1)

/-- Allocate the children of an object in order. -/
def writeFields : JFields → Heap → ℕ → Heap × List (String × ℕ) × ℕ
  | .nil, h, c => (h, [], c)
  | .cons k v fs, h, c =>
      let r1 := writeVal v h c
      let r2 := writeFields fs r1.1 r1.2.2
      (r2.1, (k, r1.2.1) :: r2.2.1, r2.2.2)

end

mutual

/-- Read a JSON tree back from the heap (`JSON.stringify` of a stored
root); the fuel bounds the traversal depth. -/
def readVal (h : Heap) : ℕ → ℕ → Option JVal
  | 0, _ => none
  | fuel + 1, addr =>
      match h addr with
      | some (.hleaf l) => some (.leaf l)
      | some (.hnode fs) => (readFields h fuel fs).map JVal.node
      | none => none
termination_by fuel _ => (fuel, 0)

/-- Read the children of a stored object. -/
def readFields (h : Heap) : ℕ → List (String × ℕ) → Option JFields
  | _, [] => some .nil
  | fuel, (k, addr) :: fs =>
      match readVal h fuel addr, readFields h fuel fs with
      | some v, some vs => some (.cons k v vs)
      | _, _ => none
termination_by fuel fs => (fuel, fs.length + 1)

end

mutual

/-- Depth of a JSON tree: the fuel needed to read it back. -/
def jdepth : JVal → ℕ
  | .leaf _ => 1
  | .node fs => jdepthF fs + 1

/-- Depth of a field list. -/
def jdepthF : JFields → ℕ
  | .nil => 0
  | .cons _ v fs => max (jdepth v) (jdepthF fs)

end

/-- JSON encoding of an `Adjustments` record. -/
def encodeAdjustments (a : Adjustments) : JVal :=
  .node (.cons "brightness" (.leaf (.num a.brightness))
    (.cons "contrast" (.leaf (.num a.contrast))
      (.cons "saturation" (.leaf (.num a.saturation))
        (.cons "grayscale" (.leaf (.num a.grayscale))
          (.cons "sepia" (.leaf (.num a.sepia))
            (.cons "hueRotate" (.leaf (.num a.hueRotate))
              (.cons "blur" (.leaf (.num a.blur))
                (.cons "invert" (.leaf (.num a.invert))
                  (.cons "exposure" (.leaf (.num a.exposure))
                    (.cons "gamma" (.leaf (.num a.gamma))
                      (.cons "vignette" (.leaf (.num a.vignette))
                        (.cons "noise" (.leaf (.num a.noise))
                          (.cons "grain" (.leaf (.num a.grain))
                            (.cons "perspectiveH" (.leaf (.num a.perspectiveH))
                              (.cons "perspectiveV" (.leaf (.num a.perspectiveV))
                                (.cons "duotoneEnabled" (.leaf (.bool a.duotoneEnabled))
                                  (.cons "duotoneLight" (.leaf (.str a.duotoneLight))
                                    (.cons "duotoneDark" (.leaf (.str a.duotoneDark))
                                      .nil))))))))))))))))))

/-- JSON encoding of one point. -/
def encodePt (p : Pt) : JVal :=
  .node (.cons "x" (.leaf (.num p.x)) (.cons "y" (.leaf (.num p.y)) .nil))

/-- JSON encoding of a point list (an array, keyed by index). -/
def encodePts : ℕ → List Pt → JFields
  | _, [] => .nil
  | i, p :: ps => .cons (toString i) (encodePt p) (encodePts (i + 1) ps)

/-- JSON encoding of the stroke mode string. -/
def encodeMode : StrokeMode → JLeaf
  | .pencil => .str "pencil"
  | .glow => .str "glow"
  | .eraser => .str "eraser"

/-- JSON encoding of one stroke. -/
def encodeStroke (s : Stroke) : JVal :=
  .node (.cons "id" (.leaf (.str s.id))
    (.cons "points" (.node (encodePts 0 s.points))
      (.cons "color" (.leaf (.str s.color))
        (.cons "width" (.leaf (.num s.width))
          (.cons "mode" (.leaf (encodeMode s.mode)) .nil)))))

/-- JSON encoding of a stroke list. -/
def encodeStrokes : ℕ → List Stroke → JFields
  | _, [] => .nil
  | i, s :: ss => .cons (toString i) (encodeStroke s) (encodeStrokes (i + 1) ss)

/-- JSON encoding of the text alignment string. -/
def encodeAlign : TextAlign → JLeaf
  | .left => .str "left"
  | .center => .str "center"
  | .right => .str "right"

/-- JSON encoding of one text item. -/
def encodeText (t : TextItem) : JVal :=
  .node (.cons "id" (.leaf (.str t.id))
    (.cons "text" (.leaf (.str t.text))
      (.cons "x" (.leaf (.num t.x))
        (.cons "y" (.leaf (.num t.y))
          (.cons "color" (.leaf (.str t.color))
            (.cons "size" (.leaf (.num t.size))
              (.cons "fontWeight" (.leaf (.str t.fontWeight))
                (.cons "align" (.leaf (encodeAlign t.align))
                  (.cons "letterSpacing" (.leaf (.num t.letterSpacing)) .nil)))))))))

/-- JSON encoding of a text list. -/
def encodeTexts : ℕ → List TextItem → JFields
  | _, [] => .nil
  | i, t :: ts => .cons (toString i) (encodeText t) (encodeTexts (i + 1) ts)

/-- JSON encoding of the snapshot payload built at src/App.tsx line 35. -/
def encodeEditorState (st : EditorState) : JVal :=
  .node (.cons "adjustments" (encodeAdjustments st.adjustments)
    (.cons "rotation" (.leaf (.num st.rotation))
      (.cons "flipH" (.leaf (.bool st.flipH))
        (.cons "flipV" (.leaf (.bool st.flipV))
          (.cons "strokes" (.node (encodeStrokes 0 st.strokes))
            (.cons "texts" (.node (encodeTexts 0 st.texts))
              (.cons "canvasBg" (.leaf (.str st.canvasBg)) .nil)))))))

/-! ## Concrete inputs used to evaluate the theorems -/

/-- A 1×1 source image with a fully transparent pixel. -/
def cxImage : Image :=
  { width := 1, height := 1, px := fun _ _ => { r := 200, g := 100, b := 50, a := 0 } }

/-- A 1×1 fully opaque source image. -/
def opImage : Image :=
  { width := 1, height := 1, px := fun _ _ => { r := 7, g := 8, b := 9, a := 1 } }

/-- A concrete editor snapshot payload. -/
def sampleEditorState : EditorState :=
  { adjustments := INITIAL_ADJUSTMENTS, rotation := 0, flipH := false, flipV := false
    strokes := [], texts := [], canvasBg := "#0a0f1a" }

/-- The empty object store. -/
def emptyHeap : Heap := fun _ => none

/-- A constant random stream. -/
def halfStream : ℕ → ℚ := fun _ => 1 / 2

/-- A concrete buffer pixel for the duotone evaluation. -/
def bufPix : Pix := { r := 30, g := 60, b := 90, a := 1 / 2 }

/-- A concrete stroke. -/
def sampleStroke : Stroke :=
  { id := "1", points := [{ x := 0, y := 0 }], color := "#3b82f6", width := 5
  , mode := StrokeMode.pencil }

/-- A second concrete stroke. -/
def sampleStroke2 : Stroke :=
  { id := "2", points := [{ x := 3, y := 4 }], color := "#ef4444", width := 2
  , mode := StrokeMode.glow }

/-! ## Helper lemmas -/

/-- Clamping is the identity on in-bounds coordinates. -/
theorem clampCoord_of_lt (x bound : ℕ) (hx : x < bound) : clampCoord x bound = x := by
  unfold clampCoord
  have h1 : min (x : ℤ) ((bound : ℤ) - 1) = (x : ℤ) := min_eq_left (by omega)
  rw [h1, max_eq_right (by positivity : (0 : ℤ) ≤ (x : ℤ))]
  exact Int.toNat_natCast x

/-- The radius-0 blur kernel is the identity on in-bounds pixels. -/
theorem blurImage_zero_px (inner : Image) (x y : ℕ)
    (hx : x < inner.width) (hy : y < inner.height) :
    (blurImage 0 inner).px x y = inner.px x y := by
  have hoff : blurOffsets 0 = [(0 : ℤ)] := by decide
  simp only [blurImage, boxBlurAt, Nat.ceil_zero, hoff, List.flatMap_cons,
    List.map_cons, List.map_nil, List.flatMap_nil, List.append_nil, add_zero,
    sumPixList, List.foldr_cons, List.foldr_nil]
  rw [samplePix]
  rw [clampCoord_of_lt x inner.width hx, clampCoord_of_lt y inner.height hy]
  cases hpx : inner.px x y with
  | mk r g b a =>
      simp only [addPix, smulPix, Pix.mk.injEq, Nat.cast_zero]
      norm_num

/-- The per-pixel filter functions are the identity at their identity
amounts. -/
theorem brightnessPix_one (p : Pix) : brightnessPix 1 p = p := by
  cases p; simp [brightnessPix]

theorem contrastPix_one (p : Pix) : contrastPix 1 p = p := by
  cases p; simp only [contrastPix, Pix.mk.injEq]
  refine ⟨by ring, by ring, by ring, trivial⟩

theorem saturatePix_one (p : Pix) : saturatePix 1 p = p := by
  cases p; simp only [saturatePix, Pix.mk.injEq]
  refine ⟨by ring, by ring, by ring, trivial⟩

theorem grayscalePix_zero (p : Pix) : grayscalePix 0 p = p := by
  cases p; simp only [grayscalePix, Pix.mk.injEq]
  refine ⟨by ring, by ring, by ring, trivial⟩

theorem invertPix_zero (p : Pix) : invertPix 0 p = p := by
  cases p; simp only [invertPix, Pix.mk.injEq]
  refine ⟨by ring, by ring, by ring, trivial⟩

/-- Source-over with an opaque source returns the source pixel. -/
theorem srcOver_opaque (p : Pix) (hp : p.a = 1) : srcOver p bgPix = p := by
  cases p with
  | mk r g b a =>
      simp only at hp
      subst hp
      simp only [srcOver, bgPix, Pix.mk.injEq]
      norm_num

/-- The identity-adjustments filter chain leaves every in-bounds pixel
unchanged. -/
theorem applyFilters_initial (img : Image) (x y : ℕ)
    (hx : x < img.width) (hy : y < img.height) :
    (applyFilters INITIAL_ADJUSTMENTS img).px x y = img.px x y := by
  have hb : (INITIAL_ADJUSTMENTS.brightness : ℚ) / 100 = 1 := by
    norm_num [INITIAL_ADJUSTMENTS]
  have hc : (INITIAL_ADJUSTMENTS.contrast : ℚ) / 100 = 1 := by
    norm_num [INITIAL_ADJUSTMENTS]
  have hs : (INITIAL_ADJUSTMENTS.saturation : ℚ) / 100 = 1 := by
    norm_num [INITIAL_ADJUSTMENTS]
  have hg : (INITIAL_ADJUSTMENTS.grayscale : ℚ) / 100 = 0 := by
    norm_num [INITIAL_ADJUSTMENTS]
  have hi : (INITIAL_ADJUSTMENTS.invert : ℚ) / 100 = 0 := by
    norm_num [INITIAL_ADJUSTMENTS]
  have he : (INITIAL_ADJUSTMENTS.exposure : ℚ) / 100 = 1 := by
    norm_num [INITIAL_ADJUSTMENTS]
  have hblur : INITIAL_ADJUSTMENTS.blur = 0 := by norm_num [INITIAL_ADJUSTMENTS]
  simp only [applyFilters, hb, hc, hs, hg, hi, he, hblur, mapPix]
  rw [blurImage_zero_px]
  · simp [mapPix, brightnessPix_one, contrastPix_one, saturatePix_one,
      grayscalePix_zero, invertPix_zero]
  · simpa [mapPix] using hx
  · simpa [mapPix] using hy

/-- `lastN` never returns more than `n` elements. -/
theorem lastN_length_le (n : ℕ) (l : List α) : (lastN n l).length ≤ n := by
  simp only [lastN, List.length_drop]
  omega

/-- `lastN` is the identity on lists no longer than `n`. -/
theorem lastN_of_length_le (n : ℕ) (l : List α) (h : l.length ≤ n) : lastN n l = l := by
  have : l.length - n = 0 := by omega
  simp [lastN, this]

/-- With the pointer at or above `-1` (as in every reachable state), the
`slice(0, historyIndex + 1)` of the source is an ordinary prefix take. -/
theorem jsSliceTo_nonneg (l : List α) (e : ℤ) (h : 0 ≤ e) :
    jsSliceTo l e = l.take e.toNat := by
  rw [jsSliceTo, if_neg (by omega)]

/-- A single push never leaves more than 20 snapshots. -/
theorem pushHistory_length_le (prev : List α) (idx : ℤ) (s : α) :
    (pushHistory prev idx s).length ≤ 20 :=
  lastN_length_le 20 _

/-- After any nonempty run of `saveToHistory` calls the log holds at most
20 snapshots. -/
theorem foldl_historyStep_length_le (snaps : List α) :
    ∀ st : List α × ℤ, snaps ≠ [] →
      ((snaps.foldl historyStep st).1).length ≤ 20 := by
  induction snaps with
  | nil => intro st hne; cases hne rfl
  | cons s rest ih =>
      intro st _
      cases rest with
      | nil => simpa [historyStep] using pushHistory_length_le st.1 st.2 s
      | cons s2 r2 =>
          rw [List.foldl_cons]
          exact ih _ (by simp)

/-! ## Claim theorems -/

/-- Claim C1.  The composite filter applied by the render contains no sepia
and no hue-rotate operation at all: the chain is brightness, contrast,
saturate, grayscale, blur, invert, exposure-brightness, so the `sepia` and
`hueRotate` adjustment fields never influence it — the "Golden Hour" preset
values (sepia 40, hue-rotate 280) produce the same chain as the defaults. -/
theorem filterChain_has_no_sepia_or_hueRotate (a : Adjustments) :
    ((filterChain a).all fun op => !op.isSepiaOrHue) = true ∧
    filterChain a = filterChain { a with sepia := 0, hueRotate := 0 } ∧
    filterChain { INITIAL_ADJUSTMENTS with sepia := 40, hueRotate := 280 } =
      filterChain INITIAL_ADJUSTMENTS := by
  exact ⟨rfl, rfl, rfl⟩

/-- Claim C2.  With a loaded image of size `(w, h)` and rotation in
`[0, 90, 180, 270]`, the render sets the canvas to `(w, h)` for rotation
0 or 180 and to `(h, w)` for rotation 90 or 270. -/
theorem renderDims_by_rotation (w h : ℕ) (rot : ℤ)
    (hrot : rot = 0 ∨ rot = 90 ∨ rot = 180 ∨ rot = 270) :
    renderDims (some (w, h)) rot =
      some (if rot = 90 ∨ rot = 270 then (h, w) else (w, h)) := by
  rcases hrot with rfl | rfl | rfl | rfl <;>
    norm_num [renderDims, canvasDims]

/-- Claim C2 witness: rotation 90 of a 3×5 image gives a 5×3 canvas. -/
theorem renderDims_by_rotation_witness :
    ((90 : ℤ) = 0 ∨ (90 : ℤ) = 90 ∨ (90 : ℤ) = 180 ∨ (90 : ℤ) = 270) ∧
    renderDims (some (3, 5)) 90 =
      some (if (90 : ℤ) = 90 ∨ (90 : ℤ) = 270 then (5, 3) else (3, 5)) :=
  ⟨by norm_num, renderDims_by_rotation 3 5 90 (by norm_num)⟩

/-- Claim C8.  Loading a new source image stores the image and resets every
downstream parameter: adjustments to the initial record, rotation to 0,
strokes and texts to empty, overlay to no image, and clears the history. -/
theorem load_source_resets_editor (st : AppState) (img : ℕ) :
    (handleFileLoaded st img false).image = some img ∧
    (handleFileLoaded st img false).adjustments = INITIAL_ADJUSTMENTS ∧
    (handleFileLoaded st img false).rotation = 0 ∧
    (handleFileLoaded st img false).strokes = [] ∧
    (handleFileLoaded st img false).texts = [] ∧
    (handleFileLoaded st img false).overlay.image = none ∧
    (handleFileLoaded st img false).history = [] ∧
    (handleFileLoaded st img false).historyIndex = -1 := by
  simp [handleFileLoaded, resetEditor]

/-- Claim C10.  A pointer-move while drawing with the draw tool appends
exactly one point to the most recently created stroke and leaves every
earlier stroke untouched; with an empty stroke list it changes nothing. -/
theorem move_extends_last_stroke (tool : EditorTool) (hasImage isDrawing : Bool)
    (strokes : List Stroke) (pos : Pt)
    (ht : tool = EditorTool.draw) (hi : hasImage = true) (hd : isDrawing = true) :
    (strokes = [] → handleMoveStrokes tool hasImage isDrawing strokes pos = strokes) ∧
    ∀ init last, strokes = init ++ [last] →
      handleMoveStrokes tool hasImage isDrawing strokes pos =
        init ++ [{ last with points := last.points ++ [pos] }] := by
  subst ht hi hd
  constructor
  · rintro rfl
    rfl
  · rintro init last rfl
    simp [handleMoveStrokes, extendLastStroke]

/-- Claim C10 witness: with two strokes present, a move extends only the
second one. -/
theorem move_extends_last_stroke_witness :
    (EditorTool.draw = EditorTool.draw ∧ true = true ∧ true = true) ∧
    handleMoveStrokes EditorTool.draw true true [sampleStroke, sampleStroke2]
        { x := 9, y := 9 } =
      [sampleStroke,
       { sampleStroke2 with points := sampleStroke2.points ++ [{ x := 9, y := 9 }] }] :=
  ⟨⟨rfl, rfl, rfl⟩, by
    have h := (move_extends_last_stroke EditorTool.draw true true
      [sampleStroke, sampleStroke2] { x := 9, y := 9 } rfl rfl rfl).2
      [sampleStroke] sampleStroke2 rfl
    simpa using h⟩

/-- Claim C6.  A `saveToHistory` push keeps the log at no more than 20
entries; it first discards everything after the pointer, appends the new
snapshot, keeps the whole list while it fits, and otherwise evicts exactly
the oldest overflow entries; any nonempty run of pushes ends at or below
capacity. -/
theorem history_push_spec (prev : List α) (idx : ℤ) (s : α) (hidx : -1 ≤ idx) :
    (pushHistory prev idx s).length ≤ 20 ∧
    pushHistory prev idx s = lastN 20 (prev.take (idx + 1).toNat ++ [s]) ∧
    ((prev.take (idx + 1).toNat).length < 20 →
      pushHistory prev idx s = prev.take (idx + 1).toNat ++ [s]) ∧
    (∀ t : List α, t = prev.take (idx + 1).toNat ++ [s] →
      pushHistory prev idx s = t.drop (t.length - 20)) ∧
    (∀ snaps : List α, snaps ≠ [] →
      ((snaps.foldl historyStep (prev, idx)).1).length ≤ 20) := by
  have hslice : jsSliceTo prev (idx + 1) = prev.take (idx + 1).toNat :=
    jsSliceTo_nonneg prev (idx + 1) (by omega)
  refine ⟨pushHistory_length_le prev idx s, ?_, ?_, ?_, ?_⟩
  · rw [pushHistory, hslice]
  · intro hlt
    rw [pushHistory, hslice]
    exact lastN_of_length_le 20 _
      (by rw [List.length_append, List.length_singleton]; omega)
  · rintro t rfl
    rw [pushHistory, hslice]
    rfl
  · intro snaps hne
    exact foldl_historyStep_length_le snaps (prev, idx) hne

/-- Claim C6 witness: pushing snapshot 99 with the pointer at index 0 of a
three-entry log discards the two entries after the pointer and appends. -/
theorem history_push_spec_witness :
    (-1 : ℤ) ≤ 0 ∧ pushHistory [10, 20, 30] (0 : ℤ) (99 : ℕ) = [10, 99] :=
  ⟨by norm_num, by
    have h := (history_push_spec [10, 20, 30] (0 : ℤ) (99 : ℕ) (by norm_num)).2.2.1
      (by simp)
    simpa using h⟩

/-- Claim C5 counterexample to the stated mark count: on a 1×1 canvas with
grain 1 the loop bound is 1/5000, whose floor is 0, yet the loop draws one
mark (`0 < 1/5000` admits the loop body once). -/
theorem grain_count_floor_counterexample :
    ⌊grainIterBound 1 1 1⌋ = 0 ∧ (grainMarks 1 1 1 halfStream).length = 1 := by
  constructor
  · norm_num [grainIterBound]
  · rw [grainMarks, if_pos (by norm_num)]
    simp only [List.length_map, List.length_range]
    rw [grainCount, grainIterBound, Nat.ceil_eq_iff (by norm_num)]
    norm_num

/-- Claim C5 (amended).  The grain stage draws marks exactly when grain is
positive; it draws one mark for every natural `i` below the rational bound
`w·h·grain/5000` — that is `⌈w·h·grain/5000⌉` marks, not the floor — each
mark a white 1×1 rectangle inside the canvas with alpha at most 0.05. -/
theorem grain_stage_spec (w h : ℕ) (grain : ℚ) (rnd : ℕ → ℚ)
    (hr : ∀ n, 0 ≤ rnd n ∧ rnd n < 1) :
    (grain ≤ 0 → grainMarks w h grain rnd = []) ∧
    (0 < grain → (grainMarks w h grain rnd).length = grainCount w h grain) ∧
    (∀ i : ℕ, i < grainCount w h grain ↔ (i : ℚ) < grainIterBound w h grain) ∧
    (∀ m ∈ grainMarks w h grain rnd,
      0 ≤ m.alpha ∧ m.alpha ≤ 5 / 100 ∧
      0 ≤ m.x ∧ m.x ≤ w ∧ 0 ≤ m.y ∧ m.y ≤ h) := by
  refine ⟨?_, ?_, ?_, ?_⟩
  · intro hg
    rw [grainMarks, if_neg (not_lt.mpr hg)]
  · intro hg
    rw [grainMarks, if_pos hg]
    simp
  · intro i
    exact Nat.lt_ceil
  · intro m hm
    rw [grainMarks] at hm
    by_cases hg : 0 < grain
    · rw [if_pos hg] at hm
      obtain ⟨i, _, rfl⟩ := List.mem_map.mp hm
      refine ⟨mul_nonneg (hr _).1 (by norm_num),
        mul_le_of_le_one_left (by norm_num) (le_of_lt (hr _).2),
        mul_nonneg (hr _).1 (Nat.cast_nonneg w),
        mul_le_of_le_one_left (Nat.cast_nonneg w) (le_of_lt (hr _).2),
        mul_nonneg (hr _).1 (Nat.cast_nonneg h),
        mul_le_of_le_one_left (Nat.cast_nonneg h) (le_of_lt (hr _).2)⟩
    · rw [if_neg hg] at hm
      cases hm

/-- Claim C5 witness: a 2×3 canvas with grain 2500 and the constant-half
random stream draws 3 marks, all inside the canvas with small alpha. -/
theorem grain_stage_spec_witness :
    (∀ n : ℕ, 0 ≤ halfStream n ∧ halfStream n < 1) ∧
    (grainMarks 2 3 2500 halfStream).length = grainCount 2 3 2500 ∧
    grainCount 2 3 2500 = 3 ∧
    ∀ m ∈ grainMarks 2 3 2500 halfStream,
      0 ≤ m.alpha ∧ m.alpha ≤ 5 / 100 ∧
      0 ≤ m.x ∧ m.x ≤ 2 ∧ 0 ≤ m.y ∧ m.y ≤ 3 := by
  have hr : ∀ n : ℕ, 0 ≤ halfStream n ∧ halfStream n < 1 := by
    intro n
    constructor <;> norm_num [halfStream]
  have h := grain_stage_spec 2 3 2500 halfStream hr
  refine ⟨hr, h.2.1 (by norm_num), by norm_num [grainCount, grainIterBound], ?_⟩
  intro m hm
  have := h.2.2.2 m hm
  simpa using this

/-- `parseHex6` succeeds exactly on six hex digits. -/
theorem parseHex6_isSome_iff (cs : List Char) :
    (parseHex6 cs).isSome ↔ cs.length = 6 ∧ ∀ c ∈ cs, isHexDig c := by
  rcases cs with _ | ⟨c1, _ | ⟨c2, _ | ⟨c3, _ | ⟨c4, _ | ⟨c5, _ | ⟨c6, _ | ⟨c7, rest⟩⟩⟩⟩⟩⟩⟩ <;>
    simp [parseHex6, apply_ite Option.isSome, List.forall_mem_cons]
  tauto

/-- Claim C4.  The hex parser succeeds exactly on an optional leading `#`
followed by six hexadecimal digits, and on any other string the duotone
stage falls back to pure white for the light color and pure black for the
dark color. -/
theorem hexToRgb_iff_and_fallback (s : String) :
    ((hexToRgb s).isSome ↔ specValidHex s) ∧
    (¬ specValidHex s →
      duotoneLightRgb s = { r := 255, g := 255, b := 255 } ∧
      duotoneDarkRgb s = { r := 0, g := 0, b := 0 }) := by
  have key : (hexToRgb s).isSome ↔ specValidHex s := by
    constructor
    · intro hsome
      rw [hexToRgb] at hsome
      by_cases hh : s.data.head? = some '#'
      · rw [if_pos hh] at hsome
        obtain ⟨t, ht⟩ := List.head?_eq_some_iff.mp hh
        obtain ⟨hlen, hdig⟩ := (parseHex6_isSome_iff _).mp hsome
        refine ⟨s.data.tail, Or.inl ?_, hlen, hdig⟩
        rw [ht]
        rfl
      · rw [if_neg hh] at hsome
        obtain ⟨hlen, hdig⟩ := (parseHex6_isSome_iff _).mp hsome
        exact ⟨s.data, Or.inr rfl, hlen, hdig⟩
    · rintro ⟨core, hc | hc, hlen, hdig⟩
      · have hh : s.data.head? = some '#' := by rw [hc]; rfl
        rw [hexToRgb, if_pos hh]
        have htail : s.data.tail = core := by rw [hc, List.tail_cons]
        rw [htail]
        exact (parseHex6_isSome_iff core).mpr ⟨hlen, hdig⟩
      · by_cases hh : s.data.head? = some '#'
        · obtain ⟨t, ht⟩ := List.head?_eq_some_iff.mp hh
          have hmem : '#' ∈ core := by
            rw [← hc, ht]
            exact List.mem_cons_self _ _
          have := hdig '#' hmem
          simp [isHexDig] at this
        · rw [hexToRgb, if_neg hh, hc]
          exact (parseHex6_isSome_iff core).mpr ⟨hlen, hdig⟩
  refine ⟨key, ?_⟩
  intro hnot
  have hnone : hexToRgb s = none := by
    rcases h : hexToRgb s with - | v
    · rfl
    · exact absurd (key.mp (by rw [h]; rfl)) hnot
  constructor
  · rw [duotoneLightRgb, hnone]
    rfl
  · rw [duotoneDarkRgb, hnone]
    rfl

/-- Claim C4 witness: the three-digit shorthand `#fff` is rejected and both
duotone colors fall back to white/black. -/
theorem hexToRgb_iff_and_fallback_witness :
    ¬ specValidHex "#fff" ∧
    duotoneLightRgb "#fff" = { r := 255, g := 255, b := 255 } ∧
    duotoneDarkRgb "#fff" = { r := 0, g := 0, b := 0 } := by
  have hnot : ¬ specValidHex "#fff" := by
    rintro ⟨core, hc | hc, hlen, -⟩
    · have h4 : ("#fff".data).length = 4 := rfl
      rw [hc] at h4
      simp at h4
      omega
    · have h4 : ("#fff".data).length = 4 := rfl
      rw [hc] at h4
      omega
  exact ⟨hnot, ((hexToRgb_iff_and_fallback "#fff").2 hnot).1,
    ((hexToRgb_iff_and_fallback "#fff").2 hnot).2⟩

/-- Claim C3.  The duotone stage is the identity when disabled; when enabled
it maps every pixel through `dark + (light - dark) * avg` with
`avg = (R+G+B)/3/255`, leaving alpha unchanged, and with light `#ffffff`
and dark `#000000` every output pixel has `R = G = B = 255 * avg`. -/
theorem duotone_stage_spec (enabled : Bool) (lightS darkS : String) (buf : List Pix) :
    (enabled = false → duotoneStage enabled lightS darkS buf = buf) ∧
    (enabled = true →
      (duotoneStage enabled lightS darkS buf).length = buf.length ∧
      (∀ i : ℕ, ∀ p : Pix, buf[i]? = some p →
        (duotoneStage enabled lightS darkS buf)[i]? =
          some (duotonePix (duotoneLightRgb lightS) (duotoneDarkRgb darkS) p)) ∧
      (duotoneStage enabled lightS darkS buf).map (fun p => p.a) =
        buf.map (fun p => p.a)) ∧
    (enabled = true → lightS = "#ffffff" → darkS = "#000000" →
      ∀ i : ℕ, ∀ p : Pix, buf[i]? = some p →
        (duotoneStage enabled lightS darkS buf)[i]? =
          some { r := 255 * lumAvg p, g := 255 * lumAvg p, b := 255 * lumAvg p
               , a := p.a }) := by
  refine ⟨?_, ?_, ?_⟩
  · rintro rfl
    rfl
  · rintro rfl
    refine ⟨by simp [duotoneStage], ?_, ?_⟩
    · intro i p hp
      simp [duotoneStage, List.getElem?_map, hp]
    · simp [duotoneStage, List.map_map, Function.comp, duotonePix]
  · rintro rfl rfl rfl i p hp
    have hlight : duotoneLightRgb "#ffffff" = { r := 255, g := 255, b := 255 } := by
      decide
    have hdark : duotoneDarkRgb "#000000" = { r := 0, g := 0, b := 0 } := by
      decide
    simp only [duotoneStage, if_true, hlight, hdark, List.getElem?_map, hp,
      Option.map_some']
    cases p with
    | mk r g b a =>
        simp only [duotonePix, lumAvg, Option.some.injEq, Pix.mk.injEq]
        norm_num

/-- Claim C3 witness: the pixel (30, 60, 90, ½) maps under white/black
duotone to (60, 60, 60, ½), since 255·avg = (30+60+90)/3 = 60. -/
theorem duotone_stage_spec_witness :
    ([bufPix][0]? = some bufPix) ∧
    (duotoneStage true "#ffffff" "#000000" [bufPix])[0]? =
      some { r := 255 * lumAvg bufPix, g := 255 * lumAvg bufPix
           , b := 255 * lumAvg bufPix, a := bufPix.a } :=
  ⟨rfl, (duotone_stage_spec true "#ffffff" "#000000" [bufPix]).2.2 rfl rfl rfl 0 bufPix rfl⟩

/-- Claim C9 counterexample: identity adjustments do not reproduce every
source image.  The render first fills the canvas with the opaque background
`#0a0f1a` and then source-over composites the (identity-filtered) image, so
a fully transparent source pixel (200, 100, 50, 0) comes out as the
background pixel (10, 15, 26, 1), not as the source pixel. -/
theorem identity_render_transparent_counterexample :
    (renderBaseline cxImage INITIAL_ADJUSTMENTS).px 0 0 = bgPix ∧
    (renderBaseline cxImage INITIAL_ADJUSTMENTS).px 0 0 ≠ cxImage.px 0 0 := by
  have hfa : (applyFilters INITIAL_ADJUSTMENTS cxImage).px 0 0 = cxImage.px 0 0 :=
    applyFilters_initial cxImage 0 0 (by norm_num [cxImage]) (by norm_num [cxImage])
  have hdu : INITIAL_ADJUSTMENTS.duotoneEnabled = false := rfl
  have hmain : (renderBaseline cxImage INITIAL_ADJUSTMENTS).px 0 0 = bgPix := by
    simp only [renderBaseline, hdu, Bool.false_eq_true, if_false]
    rw [hfa]
    show srcOver (cxImage.px 0 0) bgPix = bgPix
    norm_num [srcOver, bgPix, cxImage]
  refine ⟨hmain, ?_⟩
  rw [hmain]
  intro hcontra
  have : (bgPix).r = (cxImage.px 0 0).r := by rw [hcontra]
  norm_num [bgPix, cxImage] at this

/-- Claim C9 (amended).  For every *fully opaque* source image, the render
with identity adjustments (all percentage fields 100, additive fields 0,
duotone disabled, grain 0, rotation 0) and no strokes, texts or overlay
reproduces the source image's pixels exactly. -/
theorem identity_render_opaque (img : Image)
    (hop : ∀ x y : ℕ, x < img.width → y < img.height → (img.px x y).a = 1) :
    ∀ x y : ℕ, x < img.width → y < img.height →
      (renderBaseline img INITIAL_ADJUSTMENTS).px x y = img.px x y := by
  intro x y hx hy
  have hdu : INITIAL_ADJUSTMENTS.duotoneEnabled = false := rfl
  simp only [renderBaseline, hdu, Bool.false_eq_true, if_false]
  rw [applyFilters_initial img x y hx hy]
  exact srcOver_opaque _ (hop x y hx hy)

/-- Claim C9 witness: a 1×1 opaque image with pixel (7, 8, 9, 1) is
reproduced exactly by the identity render. -/
theorem identity_render_opaque_witness :
    (∀ x y : ℕ, x < opImage.width → y < opImage.height → (opImage.px x y).a = 1) ∧
    (renderBaseline opImage INITIAL_ADJUSTMENTS).px 0 0 = opImage.px 0 0 :=
  ⟨fun _ _ _ _ => rfl,
   identity_render_opaque opImage (fun _ _ _ _ => rfl) 0 0
     (by norm_num [opImage]) (by norm_num [opImage])⟩

mutual

/-- `writeVal` strictly advances the allocation counter, places the root
inside the freshly allocated block `[c, c')`, and leaves every cell outside
that block exactly as it was. -/
theorem writeVal_frame (v : JVal) (h : Heap) (c : ℕ) :
    c < (writeVal v h c).2.2 ∧ c ≤ (writeVal v h c).2.1 ∧
    (writeVal v h c).2.1 < (writeVal v h c).2.2 ∧
    ∀ b, b < c ∨ (writeVal v h c).2.2 ≤ b → (writeVal v h c).1 b = h b := by
  cases v with
  | leaf l =>
      refine ⟨Nat.lt_succ_self c, le_refl c, Nat.lt_succ_self c, ?_⟩
      intro b hb
      have hbc : b ≠ c := by
        simp only [writeVal] at hb
        omega
      simp [writeVal, heapSet, hbc]
  | node fs =>
      obtain ⟨hmono, hframe⟩ := writeFields_frame fs h c
      simp only [writeVal]
      refine ⟨by omega, hmono, Nat.lt_succ_self _, ?_⟩
      intro b hb
      have hbne : b ≠ (writeFields fs h c).2.2 := by omega
      rw [show heapSet (writeFields fs h c).1 (writeFields fs h c).2.2
            (HNode.hnode (writeFields fs h c).2.1) b =
          (writeFields fs h c).1 b from by simp [heapSet, hbne]]
      exact hframe b (by omega)

/-- `writeFields` advances the counter monotonically and leaves every cell
outside the freshly allocated block untouched. -/
theorem writeFields_frame (fs : JFields) (h : Heap) (c : ℕ) :
    c ≤ (writeFields fs h c).2.2 ∧
    ∀ b, b < c ∨ (writeFields fs h c).2.2 ≤ b → (writeFields fs h c).1 b = h b := by
  cases fs with
  | nil => exact ⟨le_refl c, fun b _ => rfl⟩
  | cons k v fs =>
      obtain ⟨hc1, hroot, hrlt, hfr1⟩ := writeVal_frame v h c
      obtain ⟨hc2, hfr2⟩ :=
        writeFields_frame fs (writeVal v h c).1 (writeVal v h c).2.2
      simp only [writeFields]
      refine ⟨by omega, ?_⟩
      intro b hb
      rw [hfr2 b (by omega), hfr1 b (by omega)]

end

mutual

/-- Reading the root written by `writeVal` from any heap that agrees with
the written heap on the fresh block `[c, c')` returns exactly the written
value, given enough fuel. -/
theorem readVal_writeVal (v : JVal) : ∀ (h : Heap) (c : ℕ) (h2 : Heap) (fuel : ℕ),
    (∀ b, c ≤ b → b < (writeVal v h c).2.2 → h2 b = (writeVal v h c).1 b) →
    jdepth v ≤ fuel →
    readVal h2 fuel (writeVal v h c).2.1 = some v := by
  cases v with
  | leaf l =>
      intro h c h2 fuel hagree hfuel
      cases fuel with
      | zero => simp [jdepth] at hfuel
      | succ f =>
          have hcell : h2 c = some (HNode.hleaf l) := by
            have hag := hagree c (le_refl c) (by simp [writeVal])
            rw [hag]
            simp [writeVal, heapSet]
          simp only [writeVal]
          rw [readVal]
          simp [hcell]
  | node fs =>
      intro h c h2 fuel hagree hfuel
      obtain ⟨hc1m, hframe⟩ := writeFields_frame fs h c
      cases fuel with
      | zero => simp [jdepth] at hfuel
      | succ f =>
          have hf : jdepthF fs ≤ f := by
            simp only [jdepth] at hfuel
            omega
          have hcell : h2 (writeFields fs h c).2.2 =
              some (HNode.hnode (writeFields fs h c).2.1) := by
            have hag := hagree (writeFields fs h c).2.2 (by omega)
              (by simp only [writeVal]; omega)
            rw [hag]
            simp [writeVal, heapSet]
          have hrec : readFields h2 f (writeFields fs h c).2.1 = some fs := by
            apply readFields_writeFields fs h c h2 f _ hf
            intro b hcb hblt
            have hbne : b ≠ (writeFields fs h c).2.2 := by omega
            have hag := hagree b hcb (by simp only [writeVal]; omega)
            rw [hag]
            simp [writeVal, heapSet, hbne]
          rw [show (writeVal (JVal.node fs) h c).2.1 = (writeFields fs h c).2.2
            from by simp [writeVal]]
          rw [readVal]
          simp [hcell, hrec]

/-- Reading back the field addresses written by `writeFields` from any heap
agreeing with the written heap on the fresh block returns the written
fields. -/
theorem readFields_writeFields (fs : JFields) : ∀ (h : Heap) (c : ℕ) (h2 : Heap) (fuel : ℕ),
    (∀ b, c ≤ b → b < (writeFields fs h c).2.2 → h2 b = (writeFields fs h c).1 b) →
    jdepthF fs ≤ fuel →
    readFields h2 fuel (writeFields fs h c).2.1 = some fs := by
  cases fs with
  | nil =>
      intro h c h2 fuel _ _
      simp [writeFields, readFields]
  | cons k v fs =>
      intro h c h2 fuel hagree hfuel
      obtain ⟨hm1, hroot1, hrl1, hfr1⟩ := writeVal_frame v h c
      obtain ⟨hm2, hfr2⟩ :=
        writeFields_frame fs (writeVal v h c).1 (writeVal v h c).2.2
      have hfv : jdepth v ≤ fuel := by
        simp only [jdepthF, max_le_iff] at hfuel
        exact hfuel.1
      have hff : jdepthF fs ≤ fuel := by
        simp only [jdepthF, max_le_iff] at hfuel
        exact hfuel.2
      have hv : readVal h2 fuel (writeVal v h c).2.1 = some v := by
        apply readVal_writeVal v h c h2 fuel _ hfv
        intro b hcb hblt
        have hag := hagree b hcb (by simp only [writeFields]; omega)
        rw [hag]
        simp only [writeFields]
        exact hfr2 b (Or.inl hblt)
      have hfsr : readFields h2 fuel
          (writeFields fs (writeVal v h c).1 (writeVal v h c).2.2).2.1 = some fs := by
        apply readFields_writeFields fs (writeVal v h c).1 (writeVal v h c).2.2 h2 fuel _ hff
        intro b hcb hblt
        have hag := hagree b (by omega) (by simp only [writeFields]; omega)
        rw [hag]
        simp only [writeFields]
      rw [show (writeFields (JFields.cons k v fs) h c).2.1 =
          (k, (writeVal v h c).2.1) ::
            (writeFields fs (writeVal v h c).1 (writeVal v h c).2.2).2.1
        from by simp [writeFields]]
      rw [readFields]
      simp [hv, hfsr]

end

/-- Claim C7.  A history snapshot is a deep, structurally independent copy:
after `JSON.parse(JSON.stringify(state))` allocates the copy at fresh
addresses, overwriting any pre-existing cell `b < c` of the live editor
state leaves the snapshot's readback unchanged — it still reads back as
exactly the captured value. -/
theorem snapshot_deep_copy_independent (st : EditorState) (h : Heap) (c b : ℕ)
    (n : HNode) (fuel : ℕ) (hb : b < c)
    (hfuel : jdepth (encodeEditorState st) ≤ fuel) :
    readVal (writeVal (encodeEditorState st) h c).1 fuel
        (writeVal (encodeEditorState st) h c).2.1 = some (encodeEditorState st) ∧
    readVal (heapSet (writeVal (encodeEditorState st) h c).1 b n) fuel
        (writeVal (encodeEditorState st) h c).2.1 = some (encodeEditorState st) := by
  constructor
  · exact readVal_writeVal _ h c _ fuel (fun _ _ _ => rfl) hfuel
  · apply readVal_writeVal _ h c _ fuel _ hfuel
    intro b2 hb2 _
    have hne : b2 ≠ b := by omega
    simp [heapSet, hne]

/-- Claim C7 witness: the sample snapshot written at counter 1 reads back
unchanged after cell 0 (a live-state cell) is overwritten. -/
theorem snapshot_deep_copy_independent_witness :
    ((0 : ℕ) < 1 ∧ jdepth (encodeEditorState sampleEditorState) ≤ 10) ∧
    readVal (heapSet (writeVal (encodeEditorState sampleEditorState) emptyHeap 1).1 0
        (HNode.hleaf JLeaf.null)) 10
        (writeVal (encodeEditorState sampleEditorState) emptyHeap 1).2.1 =
      some (encodeEditorState sampleEditorState) :=
  ⟨⟨by decide, by decide⟩,
   (snapshot_deep_copy_independent sampleEditorState emptyHeap 1 0
       (HNode.hleaf JLeaf.null) 10 (by decide) (by decide)).2⟩

end PixelForge
